import Mathlib

/-!
# Verification of the secp256k1 Schnorr signature implementation

Shallow embedding of the single-signer Schnorr sign/verify routines
(`Schnorr::Sign`, `Schnorr::Verify` in `Schnorr.cpp`) and of the point
serialization layer (`ECPOINTSerialize.cpp`).

Modelling conventions:

* Bytes are `List Nat`; a `bytes` buffer of the source is a list of octets.
* OpenSSL `BIGNUM` values are `Int`; `BN_nnmod`, `BN_mod_mul`, `BN_mod_sub`
  all produce values in `[0, n)`, which matches `Int.emod` for a positive
  modulus.
* The secp256k1 group is cyclic of prime order `n`, so every point is a
  scalar multiple of the base point `G`.  A curve point is represented by
  its discrete logarithm with respect to `G`: the point `k·G` is the
  element `(k : ZMod n)`, point addition is addition in `ZMod n`, and the
  point at infinity is `0`.  `EC_POINT_mul(group, Q, s, P, r)` (that is,
  `Q = s·G + r·P`) becomes `s + r * p` in `ZMod n`.
* The group order is kept as a parameter `n` (for the real curve it is
  `secp256k1Order`); every theorem below is proved for all `n`.
* SHA-256 is an abstract function `H : Bytes → Bytes`; the streaming
  `SHA2::Update` interface accumulates input bytes and `Finalize` applies
  `H` to the accumulated input.
* The compressed-point encoding `EC_POINT_point2oct(POINT_CONVERSION_COMPRESSED)`
  is an abstract function `enc : ZMod n → Bytes`.  Both `Sign` and `Verify`
  check that the conversion wrote exactly `PUBKEY_COMPRESSED_SIZE_BYTES`
  (33) bytes and fail otherwise, exactly as the source does.
* `offset` and `size` are C++ `unsigned int` (32 bits on the CI target
  platform), so `offset + size` in the source wraps modulo `2 ^ 32`; the
  guard is modelled as `msg.length < (offset + size) % 2 ^ 32`.
-/

namespace Schnorr

/-- A byte sequence (`bytes` in the source); each entry is one octet. -/
abbrev Bytes := List Nat

/-- Big-endian interpretation of a byte sequence as a natural number;
models `BN_bin2bn`. -/
def bytesToNat (bs : Bytes) : Nat :=
  bs.foldl (fun acc b => 256 * acc + b) 0

/-- Helper for `natToBytes`: structural recursion on a fuel argument so
that the definition evaluates by kernel reduction.  `m / 256 < m` for
`m > 0`, so fuel `m` always suffices. -/
def natToBytesAux : Nat → Nat → Bytes
  | 0, _ => []
  | fuel + 1, m => if m = 0 then [] else natToBytesAux fuel (m / 256) ++ [m % 256]

/-- Minimal big-endian byte representation of a natural number, with no
leading zero octets; models `BN_bn2bin` (`natToBytes 0 = []`). -/
def natToBytes (m : Nat) : Bytes := natToBytesAux m m

/-- `PUBKEY_COMPRESSED_SIZE_BYTES`: size of a compressed curve point. -/
def PUBKEY_COMPRESSED_SIZE_BYTES : Nat := 33

/-- The order of the secp256k1 group, as held by the curve context
(`Schnorr::GetCurveOrder`). -/
def secp256k1Order : Nat :=
  115792089237316195423570985008687907852837564279074904382605163141518161494337

/-- The effective message window `message[offset .. offset + size)` that
`SHA2::Update(message, offset, size)` hashes. -/
def window (msg : Bytes) (offset size : Nat) : Bytes :=
  (msg.drop offset).take size

/-- Initial state of the streaming hasher: no input accumulated. -/
def sha2Init : Bytes := []

/-- `SHA2::Update`: append a chunk to the accumulated input. -/
def sha2Update (st chunk : Bytes) : Bytes := st ++ chunk

/-- `SHA2::Finalize`: apply the hash function to the accumulated input. -/
def sha2Finalize (H : Bytes → Bytes) (st : Bytes) : Bytes := H st

section Model

variable (n : Nat) (H : Bytes → Bytes) (enc : ZMod n → Bytes)

/-- `PubKey::PubKey(const PrivKey&)`: the public point `P = d·G`,
in the discrete-logarithm representation of points. -/
def pubFromPriv (d : Int) : ZMod n := (d : ZMod n)

/-- One pass of `Schnorr::Sign`'s signing procedure, given the nonce `k`
drawn by `BN_generate_dsa_nonce`.  The source wraps this body in a
do/while loop (redrawing `k` while it is zero, and redoing the whole pass
while `r = 0` or `s = 0`); since the nonce derivation is a deterministic
function of `(privkey, message)`, a repeated pass reproduces the same
`k`, `r` and `s`, so the loop either succeeds on its first pass or never
terminates and emits nothing — both `none` cases here.  The external
big-number and curve operations are modelled by their mathematical
semantics; their failure branches in the source return `false` without
emitting a signature. -/
def signWithNonce (msg : Bytes) (offset size : Nat) (d : Int) (p : ZMod n)
    (k : Nat) : Option (Int × Int) :=
  if msg.length = 0 then none
  else if msg.length < (offset + size) % 2 ^ 32 then none
  else if k = 0 then none
  else
    let Q : ZMod n := (k : ZMod n)
    if (enc Q).length ≠ PUBKEY_COMPRESSED_SIZE_BYTES then none
    else if (enc p).length ≠ PUBKEY_COMPRESSED_SIZE_BYTES then none
    else
      let digest := sha2Finalize H
        (sha2Update (sha2Update (sha2Update sha2Init (enc Q)) (enc p))
          (window msg offset size))
      let r : Int := (bytesToNat digest : Int) % (n : Int)
      let rd : Int := (r * d) % (n : Int)
      let s : Int := ((k : Int) - rd) % (n : Int)
      if r = 0 ∨ s = 0 then none
      else some (r, s)

/-- `Schnorr::Sign(message, offset, size, privkey, pubkey, result)`.
`nonceF` models `BN_generate_dsa_nonce`, which the source calls on the
private scalar and the whole message byte sequence.
Modelled from the spec: the nonce derivation itself is external
(OpenSSL); per the specification it is a deterministic function of
`(privkey, message)` producing a value in `[0, n)`. -/
def Sign (nonceF : Int → Bytes → Nat) (msg : Bytes) (offset size : Nat)
    (d : Int) (p : ZMod n) : Option (Int × Int) :=
  signWithNonce n H enc msg offset size d p (nonceF d msg)

end Model

/-- Failure behaviour of the external calls made by `Schnorr::Verify`:
each field tells whether the corresponding OpenSSL call fails on this
invocation (allocation of `challenge_built`/`Q`/`ctx`/`buf`;
`EC_POINT_mul`; `EC_POINT_point2oct` on `Q` and on the public key;
`BN_bin2bn`; `BN_nnmod`). -/
structure Failures where
  allocFail : Bool
  mulFail : Bool
  octQFail : Bool
  octPFail : Bool
  bin2bnFail : Bool
  nnmodFail : Bool

/-- The run in which every external call succeeds. -/
def noFailures : Failures :=
  ⟨false, false, false, false, false, false⟩

/-- Does any external call fail? -/
def Failures.any (f : Failures) : Bool :=
  f.allocFail || f.mulFail || f.octQFail || f.octPFail ||
    f.bin2bnFail || f.nnmodFail

section Model2

variable (n : Nat) (H : Bytes → Bytes) (enc : ZMod n → Bytes)

/-- `Schnorr::Verify(message, offset, size, toverify, pubkey)`, with the
failure behaviour of the external calls made explicit.  The whole body
after the two input-shape checks runs inside a `try`/`catch` that turns
every thrown exception (allocation failure) into `return false`, so an
allocation failure is modelled directly as the result `false`; every
other failed call makes the source return `false` at that point.  The
signature components `r`, `s` are arbitrary `BIGNUM` values (`Int`). -/
def verifyF (f : Failures) (msg : Bytes) (offset size : Nat) (r s : Int)
    (p : ZMod n) : Bool :=
  if msg.length = 0 then false
  else if msg.length < (offset + size) % 2 ^ 32 then false
  else if f.allocFail then false
  else if r = 0 ∨ r < 0 ∨ (n : Int) ≤ r then false
  else if s = 0 ∨ s < 0 ∨ (n : Int) ≤ s then false
  else if f.mulFail then false
  else
    let Q : ZMod n := (s : ZMod n) + (r : ZMod n) * p
    if Q = 0 then false
    else if f.octQFail then false
    else if (enc Q).length ≠ PUBKEY_COMPRESSED_SIZE_BYTES then false
    else if f.octPFail then false
    else if (enc p).length ≠ PUBKEY_COMPRESSED_SIZE_BYTES then false
    else
      let digest := sha2Finalize H
        (sha2Update (sha2Update (sha2Update sha2Init (enc Q)) (enc p))
          (window msg offset size))
      if f.bin2bnFail then false
      else if f.nnmodFail then false
      else decide ((bytesToNat digest : Int) % (n : Int) = r)

/-- `Schnorr::Verify` on a run where every external call succeeds. -/
def Verify (msg : Bytes) (offset size : Nat) (r s : Int) (p : ZMod n) :
    Bool :=
  verifyF n H enc noFailures msg offset size r s p

end Model2

/-- The challenge both `Sign` and `Verify` build from a commitment point
`Q`: the digest of the accumulated hash input (commitment, then public
key, then message window), interpreted big-endian (`BN_bin2bn`) and
reduced by `BN_nnmod` into `[0, n)`.  An abbreviation for the expression
occurring literally in `signWithNonce` and `verifyF`. -/
abbrev challengeOf (n : Nat) (H : Bytes → Bytes) (enc : ZMod n → Bytes)
    (msg : Bytes) (offset size : Nat) (p Q : ZMod n) : Int :=
  (bytesToNat (sha2Finalize H
      (sha2Update (sha2Update (sha2Update sha2Init (enc Q)) (enc p))
        (window msg offset size))) : Int) % (n : Int)

/-- The response `s = (k - r·d) mod n` built by `BN_mod_mul` and
`BN_mod_sub` in `Schnorr::Sign`; an abbreviation for the expression
occurring literally in `signWithNonce`. -/
abbrev responseOf (n : Nat) (k : Nat) (r d : Int) : Int :=
  ((k : Int) - (r * d) % (n : Int)) % (n : Int)

end Schnorr

namespace BIGNUMSerialize

open Schnorr

/-- Modelled from the spec: `BIGNUMSerialize::GetNumber` is repository
code not under `src/`.  Per the specification's serialization contract it
reads exactly `size` bytes big-endian from `src` at `offset`, producing a
non-negative integer; an out-of-range read fails. -/
def GetNumber (src : Bytes) (offset size : Nat) : Option Nat :=
  if offset + size ≤ src.length then
    some (bytesToNat ((src.drop offset).take size))
  else none

/-- Modelled from the spec: `BIGNUMSerialize::SetNumber` is repository
code not under `src/`.  Per the specification it writes the value as
`size` bytes big-endian left-zero-padded into `dst` at `offset`,
growing the buffer as needed. -/
def SetNumber (dst : Bytes) (offset size : Nat) (value : Nat) : Bytes :=
  dst.take offset ++
    (List.replicate (size - (natToBytes value).length) 0 ++ natToBytes value)
      ++ dst.drop (offset + size)

end BIGNUMSerialize

namespace ECPOINTSerialize

open Schnorr

section Model3

variable (n : Nat) (enc : ZMod n → Bytes)

/-- Modelled from the spec: `EC_POINT_bn2point` (external OpenSSL call
used by `ECPOINTSerialize::GetNumber`).  It converts the integer back to
its minimal big-endian octet string and decodes that as a curve point:
per the specification, decoding succeeds exactly on the compressed
encodings of non-identity points on the curve, and rejects points not on
the curve, the point at infinity, and invalid prefix bytes — here, it
accepts exactly the octet strings of the form `enc q` for some
non-identity point `q`. -/
def bn2point (bn : Nat) : Option (ZMod n) :=
  ((List.range n).map (fun i => (i : ZMod n))).find?
    (fun q => decide (q ≠ 0) && decide (natToBytes bn = enc q))

/-- `ECPOINTSerialize::GetNumber`: read a big number from the buffer, then
convert it to a curve point; either step failing yields `none`. -/
def GetNumber (src : Bytes) (offset size : Nat) : Option (ZMod n) :=
  (BIGNUMSerialize.GetNumber src offset size).bind (bn2point n enc)

/-- `ECPOINTSerialize::SetNumber`.  `pt2bnFail` tells whether the external
`EC_POINT_point2bn` call returns null on this invocation; in that case
the source returns with `dst` untouched and no error indication (the
return type is `void` — here, the unchanged buffer).  Otherwise the
resulting big number is the compressed encoding of the point, handed to
`BIGNUMSerialize::SetNumber`. -/
def SetNumber (pt2bnFail : Bool) (dst : Bytes) (offset size : Nat)
    (value : ZMod n) : Bytes :=
  if pt2bnFail then dst
  else BIGNUMSerialize.SetNumber dst offset size (bytesToNat (enc value))

end Model3

end ECPOINTSerialize

namespace Schnorr

/-- Toy group order used to evaluate the definitions on concrete inputs. -/
abbrev nEx : Nat := 5

/-- Toy compressed-point encoding: 32 zero octets followed by the value,
so that every encoding has length `PUBKEY_COMPRESSED_SIZE_BYTES`. -/
def encEx : ZMod nEx → Bytes := fun q => List.replicate 32 0 ++ [q.val]

/-- Toy hash function: constant digest `[2]`. -/
def hashEx : Bytes → Bytes := fun _ => [2]

/-- Toy deterministic nonce derivation: always `3`. -/
def nonceEx : Int → Bytes → Nat := fun _ _ => 3

end Schnorr

namespace Schnorr

/-! ## Theorems -/

/-- A value reduced by `Int.emod` into `[0, m)` that is non-zero lies in
`[1, m)`. -/
theorem emod_pos_range (a m : Int) (hm : 0 < m) (h : a % m ≠ 0) :
    1 ≤ a % m ∧ a % m < m :=
  ⟨by have := Int.emod_nonneg a hm.ne'; omega, Int.emod_lt_of_pos a hm⟩

/-- Unfolded form of `signWithNonce`: the `let` bindings inlined, the
challenge and response expressions named. -/
theorem signWithNonce_def (n : Nat) (H : Bytes → Bytes)
    (enc : ZMod n → Bytes) (msg : Bytes) (offset size : Nat) (d : Int)
    (p : ZMod n) (k : Nat) :
    signWithNonce n H enc msg offset size d p k =
      if msg.length = 0 then none
      else if msg.length < (offset + size) % 2 ^ 32 then none
      else if k = 0 then none
      else if (enc ((k : ZMod n))).length ≠ PUBKEY_COMPRESSED_SIZE_BYTES then
        none
      else if (enc p).length ≠ PUBKEY_COMPRESSED_SIZE_BYTES then none
      else if challengeOf n H enc msg offset size p ((k : ZMod n)) = 0 ∨
          responseOf n k (challengeOf n H enc msg offset size p ((k : ZMod n)))
            d = 0 then none
      else some
        (challengeOf n H enc msg offset size p ((k : ZMod n)),
         responseOf n k (challengeOf n H enc msg offset size p ((k : ZMod n)))
           d) := rfl

/-- Unfolded form of `verifyF`: the `let` bindings inlined, the challenge
expression named. -/
theorem verifyF_def (n : Nat) (H : Bytes → Bytes) (enc : ZMod n → Bytes)
    (f : Failures) (msg : Bytes) (offset size : Nat) (r s : Int)
    (p : ZMod n) :
    verifyF n H enc f msg offset size r s p =
      if msg.length = 0 then false
      else if msg.length < (offset + size) % 2 ^ 32 then false
      else if f.allocFail then false
      else if r = 0 ∨ r < 0 ∨ (n : Int) ≤ r then false
      else if s = 0 ∨ s < 0 ∨ (n : Int) ≤ s then false
      else if f.mulFail then false
      else if (s : ZMod n) + (r : ZMod n) * p = 0 then false
      else if f.octQFail then false
      else if (enc ((s : ZMod n) + (r : ZMod n) * p)).length ≠
          PUBKEY_COMPRESSED_SIZE_BYTES then false
      else if f.octPFail then false
      else if (enc p).length ≠ PUBKEY_COMPRESSED_SIZE_BYTES then false
      else if f.bin2bnFail then false
      else if f.nnmodFail then false
      else decide
        (challengeOf n H enc msg offset size p
            ((s : ZMod n) + (r : ZMod n) * p) = r) := rfl

/-- Success characterization of one signing pass: `signWithNonce` emits
`(r, s)` exactly when the input checks pass, the nonce is non-zero, both
point encodings have the compressed size, the rejection condition does
not fire, and `(r, s)` are the challenge and response. -/
theorem signWithNonce_eq_some_iff (n : Nat) (H : Bytes → Bytes)
    (enc : ZMod n → Bytes) (msg : Bytes) (offset size : Nat) (d : Int)
    (p : ZMod n) (k : Nat) (r s : Int) :
    signWithNonce n H enc msg offset size d p k = some (r, s) ↔
      msg.length ≠ 0 ∧ ¬msg.length < (offset + size) % 2 ^ 32 ∧ k ≠ 0 ∧
      (enc ((k : ZMod n))).length = PUBKEY_COMPRESSED_SIZE_BYTES ∧
      (enc p).length = PUBKEY_COMPRESSED_SIZE_BYTES ∧
      ¬(challengeOf n H enc msg offset size p ((k : ZMod n)) = 0 ∨
        responseOf n k (challengeOf n H enc msg offset size p ((k : ZMod n)))
          d = 0) ∧
      challengeOf n H enc msg offset size p ((k : ZMod n)) = r ∧
      responseOf n k (challengeOf n H enc msg offset size p ((k : ZMod n)))
        d = s := by
  rw [signWithNonce_def]
  split
  next c => exact iff_of_false (by simp) (fun hh => hh.1 c)
  split
  next c => exact iff_of_false (by simp) (fun hh => hh.2.1 c)
  split
  next c => exact iff_of_false (by simp) (fun hh => hh.2.2.1 c)
  split
  next c => exact iff_of_false (by simp) (fun hh => c hh.2.2.2.1)
  split
  next c => exact iff_of_false (by simp) (fun hh => c hh.2.2.2.2.1)
  split
  next c => exact iff_of_false (by simp) (fun hh => hh.2.2.2.2.2.1 c)
  rename_i c1 c2 c3 c4 c5 c6
  constructor
  · intro hsome
    rw [Option.some.injEq, Prod.mk.injEq] at hsome
    exact ⟨c1, c2, c3, not_not.mp c4, not_not.mp c5, c6, hsome.1, hsome.2⟩
  · rintro ⟨-, -, -, -, -, -, hr, hs⟩
    rw [← hr, ← hs]

/-- Acceptance characterization of `verifyF`: the result is `true` exactly
when the input checks pass, no external call fails, `r` and `s` are in
range, the recomputed commitment is not the identity, both point
encodings have the compressed size, and the rebuilt challenge equals
`r`. -/
theorem verifyF_eq_true_iff (n : Nat) (H : Bytes → Bytes)
    (enc : ZMod n → Bytes) (f : Failures) (msg : Bytes) (offset size : Nat)
    (r s : Int) (p : ZMod n) :
    verifyF n H enc f msg offset size r s p = true ↔
      msg.length ≠ 0 ∧ ¬msg.length < (offset + size) % 2 ^ 32 ∧
      f.allocFail = false ∧ ¬(r = 0 ∨ r < 0 ∨ (n : Int) ≤ r) ∧
      ¬(s = 0 ∨ s < 0 ∨ (n : Int) ≤ s) ∧ f.mulFail = false ∧
      (s : ZMod n) + (r : ZMod n) * p ≠ 0 ∧ f.octQFail = false ∧
      (enc ((s : ZMod n) + (r : ZMod n) * p)).length =
        PUBKEY_COMPRESSED_SIZE_BYTES ∧
      f.octPFail = false ∧
      (enc p).length = PUBKEY_COMPRESSED_SIZE_BYTES ∧
      f.bin2bnFail = false ∧ f.nnmodFail = false ∧
      challengeOf n H enc msg offset size p
        ((s : ZMod n) + (r : ZMod n) * p) = r := by
  rw [verifyF_def]
  by_cases c1 : msg.length = 0
  · rw [if_pos c1]; exact iff_of_false (by simp) (fun hh => hh.1 c1)
  rw [if_neg c1]
  by_cases c2 : msg.length < (offset + size) % 2 ^ 32
  · rw [if_pos c2]; exact iff_of_false (by simp) (fun hh => hh.2.1 c2)
  rw [if_neg c2]
  by_cases c3 : f.allocFail = true
  · rw [if_pos c3]
    exact iff_of_false (by simp) (fun hh => by simp [hh.2.2.1] at c3)
  rw [if_neg c3]
  by_cases c4 : r = 0 ∨ r < 0 ∨ (n : Int) ≤ r
  · rw [if_pos c4]; exact iff_of_false (by simp) (fun hh => hh.2.2.2.1 c4)
  rw [if_neg c4]
  by_cases c5 : s = 0 ∨ s < 0 ∨ (n : Int) ≤ s
  · rw [if_pos c5]; exact iff_of_false (by simp) (fun hh => hh.2.2.2.2.1 c5)
  rw [if_neg c5]
  by_cases c6 : f.mulFail = true
  · rw [if_pos c6]
    exact iff_of_false (by simp) (fun hh => by simp [hh.2.2.2.2.2.1] at c6)
  rw [if_neg c6]
  by_cases c7 : (s : ZMod n) + (r : ZMod n) * p = 0
  · rw [if_pos c7]
    exact iff_of_false (by simp) (fun hh => hh.2.2.2.2.2.2.1 c7)
  rw [if_neg c7]
  by_cases c8 : f.octQFail = true
  · rw [if_pos c8]
    exact iff_of_false (by simp)
      (fun hh => by simp [hh.2.2.2.2.2.2.2.1] at c8)
  rw [if_neg c8]
  by_cases c9 : (enc ((s : ZMod n) + (r : ZMod n) * p)).length ≠
      PUBKEY_COMPRESSED_SIZE_BYTES
  · rw [if_pos c9]
    exact iff_of_false (by simp) (fun hh => c9 hh.2.2.2.2.2.2.2.2.1)
  rw [if_neg c9]
  by_cases c10 : f.octPFail = true
  · rw [if_pos c10]
    exact iff_of_false (by simp)
      (fun hh => by simp [hh.2.2.2.2.2.2.2.2.2.1] at c10)
  rw [if_neg c10]
  by_cases c11 : (enc p).length ≠ PUBKEY_COMPRESSED_SIZE_BYTES
  · rw [if_pos c11]
    exact iff_of_false (by simp) (fun hh => c11 hh.2.2.2.2.2.2.2.2.2.2.1)
  rw [if_neg c11]
  by_cases c12 : f.bin2bnFail = true
  · rw [if_pos c12]
    exact iff_of_false (by simp)
      (fun hh => by simp [hh.2.2.2.2.2.2.2.2.2.2.2.1] at c12)
  rw [if_neg c12]
  by_cases c13 : f.nnmodFail = true
  · rw [if_pos c13]
    exact iff_of_false (by simp)
      (fun hh => by simp [hh.2.2.2.2.2.2.2.2.2.2.2.2.1] at c13)
  rw [if_neg c13]
  rw [Bool.not_eq_true] at c3 c6 c8 c10 c12 c13
  constructor
  · intro hd
    exact ⟨c1, c2, c3, c4, c5, c6, c7, c8, not_not.mp c9, c10,
      not_not.mp c11, c12, c13, of_decide_eq_true hd⟩
  · rintro ⟨-, -, -, -, -, -, -, -, -, -, -, -, -, hr⟩
    exact decide_eq_true hr

/-- C2: `Sign` is deterministic.  The signing pass is a pure function of
its inputs, so two invocations whose nonces both come from the
deterministic derivation `nonceF` applied to the same `(privkey, message)`
pair produce bit-identical signatures. -/
theorem sign_deterministic (n : Nat) (H : Bytes → Bytes)
    (enc : ZMod n → Bytes) (nonceF : Int → Bytes → Nat) (msg : Bytes)
    (offset size : Nat) (d : Int) (p : ZMod n) (k₁ k₂ : Nat)
    (h₁ : k₁ = nonceF d msg) (h₂ : k₂ = nonceF d msg) :
    signWithNonce n H enc msg offset size d p k₁ =
      signWithNonce n H enc msg offset size d p k₂ := by
  subst h₁; subst h₂; rfl

/-- Witness for C2 at a concrete instance. -/
theorem sign_deterministic_witness :
    signWithNonce nEx hashEx encEx [1] 0 1 2 (pubFromPriv nEx 2)
        (nonceEx 2 [1]) =
      signWithNonce nEx hashEx encEx [1] 0 1 2 (pubFromPriv nEx 2) 3 :=
  sign_deterministic nEx hashEx encEx nonceEx [1] 0 1 2 (pubFromPriv nEx 2)
    (nonceEx 2 [1]) 3 rfl rfl

/-- C5: every signature emitted by a successful `Sign` pass satisfies
`1 ≤ r < n` and `1 ≤ s < n`: both components are reduced into `[0, n)`
(`BN_nnmod`, `BN_mod_sub`), and the rejection loop only ends successfully
when both are non-zero. -/
theorem sign_output_range (n : Nat) (H : Bytes → Bytes)
    (enc : ZMod n → Bytes) (msg : Bytes) (offset size : Nat) (d : Int)
    (p : ZMod n) (k : Nat) (r s : Int) (hn : 0 < n)
    (hsig : signWithNonce n H enc msg offset size d p k = some (r, s)) :
    (1 ≤ r ∧ r < (n : Int)) ∧ (1 ≤ s ∧ s < (n : Int)) := by
  have hn0 : (0 : Int) < (n : Int) := by exact_mod_cast hn
  simp only [signWithNonce] at hsig
  split at hsig
  · simp at hsig
  split at hsig
  · simp at hsig
  split at hsig
  · simp at hsig
  split at hsig
  · simp at hsig
  split at hsig
  · simp at hsig
  split at hsig
  · simp at hsig
  rename_i hrs
  push_neg at hrs
  rw [Option.some.injEq, Prod.mk.injEq] at hsig
  obtain ⟨hr, hs⟩ := hsig
  subst hr; subst hs
  exact ⟨emod_pos_range _ _ hn0 hrs.1, emod_pos_range _ _ hn0 hrs.2⟩

/-- Witness for C5 at a concrete instance. -/
theorem sign_output_range_witness :
    (1 ≤ (2 : Int) ∧ (2 : Int) < (nEx : Int)) ∧
      (1 ≤ (4 : Int) ∧ (4 : Int) < (nEx : Int)) :=
  sign_output_range nEx hashEx encEx [1] 0 1 2 (pubFromPriv nEx 2) 3 2 4
    (by decide) (by decide)

/-- C7 (failing input): `Schnorr::Sign` only rejects `message.size() == 0`;
a call with a non-empty message and `size == 0` passes both input checks
(`1 ≠ 0` and `¬(1 < 0 + 0)`) and signs over the empty window, emitting a
signature, where the specification demands failure with `InvalidInput`. -/
theorem sign_accepts_size_zero_window :
    Sign nEx hashEx encEx nonceEx [1] 0 0 2 (pubFromPriv nEx 2) =
      some (2, 4) := by decide

/-- C8 (failing input): `offset` and `size` are 32-bit `unsigned int`, so
the guard `message.size() < (offset + size)` computes the sum modulo
`2 ^ 32`.  With message length `1`, `offset = 4294967295` and `size = 2`
the unbounded sum is `4294967297 > 1`, yet the guard sees
`(offset + size) % 2 ^ 32 = 1` and lets both `Sign` and `Verify` proceed
(in C++ this reads past the end of the buffer), where the specification
demands that both fail. -/
theorem sign_verify_accept_on_window_overflow :
    Sign nEx hashEx encEx nonceEx [1] 4294967295 2 2 (pubFromPriv nEx 2) =
        some (2, 4) ∧
      Verify nEx hashEx encEx [1] 4294967295 2 2 4 (pubFromPriv nEx 2) =
        true := by decide

/-- The challenge is the reduced hash of the single byte string
`enc Q ‖ enc p ‖ message window`: the three streamed `SHA2::Update` calls
amount to hashing that concatenation. -/
theorem challengeOf_concat (n : Nat) (H : Bytes → Bytes)
    (enc : ZMod n → Bytes) (msg : Bytes) (offset size : Nat) (p Q : ZMod n) :
    challengeOf n H enc msg offset size p Q =
      (bytesToNat (H (enc Q ++ (enc p ++ window msg offset size))) : Int) %
        (n : Int) := by
  simp [challengeOf, sha2Finalize, sha2Update, sha2Init, List.append_assoc]

/-- The recomputed commitment `s·G + r·P` of `Verify` equals `k·G` when
`P = d·G`, `r` is any integer and `s = (k - r·d) mod n`:  the `mod n`
reductions vanish in `ZMod n` and the `r·d` terms cancel. -/
theorem response_add_challenge_mul (n : Nat) (k : Nat) (r d : Int) :
    ((responseOf n k r d : Int) : ZMod n) + (r : ZMod n) * (d : ZMod n) =
      (k : ZMod n) := by
  show (((k : Int) - (r * d) % (n : Int)) % (n : Int) : ZMod n) +
    (r : ZMod n) * (d : ZMod n) = (k : ZMod n)
  rw [ZMod.intCast_mod, Int.cast_sub, ZMod.intCast_mod, Int.cast_mul]
  push_cast
  ring

/-- C3: `Verify` rejects, without ever comparing the rebuilt challenge,
whenever `r ≤ 0` or `r ≥ n`, or `s ≤ 0` or `s ≥ n`, or the recomputed
point `Q' = s·G + r·P` is the identity.  The theorem holds for every hash
function `H` and every failure pattern `f`, so the rejection is
independent of the challenge comparison. -/
theorem verify_rejects_out_of_range_or_identity (n : Nat)
    (H : Bytes → Bytes) (enc : ZMod n → Bytes) (f : Failures) (msg : Bytes)
    (offset size : Nat) (r s : Int) (p : ZMod n)
    (h : r ≤ 0 ∨ (n : Int) ≤ r ∨ s ≤ 0 ∨ (n : Int) ≤ s ∨
      (s : ZMod n) + (r : ZMod n) * p = 0) :
    verifyF n H enc f msg offset size r s p = false := by
  cases hb : verifyF n H enc f msg offset size r s p
  · rfl
  · exfalso
    obtain ⟨-, -, -, h4, h5, -, h7, -⟩ :=
      (verifyF_eq_true_iff n H enc f msg offset size r s p).mp hb
    rcases h with h | h | h | h | h
    · exact h4 (by omega)
    · exact h4 (by omega)
    · exact h5 (by omega)
    · exact h5 (by omega)
    · exact h7 h

/-- Witness for C3 at a concrete instance (`r = 0` is out of range). -/
theorem verify_rejects_out_of_range_or_identity_witness :
    verifyF nEx hashEx encEx noFailures [1] 0 1 0 4 (pubFromPriv nEx 2) =
      false :=
  verify_rejects_out_of_range_or_identity nEx hashEx encEx noFailures [1] 0 1
    0 4 (pubFromPriv nEx 2) (Or.inl le_rfl)

/-- C4: `Verify` never signals an error.  On every input, any allocation
failure, failed curve operation or failed big-number operation, and any
input-shape violation (empty message, window past the end of the
message), produces the result `false` — the `try`/`catch` body converts
every exception into `return false`, and every failed call returns
`false` directly. -/
theorem verify_fails_silently (n : Nat) (H : Bytes → Bytes)
    (enc : ZMod n → Bytes) (f : Failures) (msg : Bytes) (offset size : Nat)
    (r s : Int) (p : ZMod n)
    (h : f.any = true ∨ msg.length = 0 ∨
      msg.length < (offset + size) % 2 ^ 32) :
    verifyF n H enc f msg offset size r s p = false := by
  cases hb : verifyF n H enc f msg offset size r s p
  · rfl
  · exfalso
    obtain ⟨h1, h2, h3, -, -, h6, -, h8, -, h10, -, h12, h13, -⟩ :=
      (verifyF_eq_true_iff n H enc f msg offset size r s p).mp hb
    rcases h with hf | hm | hm
    · simp [Failures.any, h3, h6, h8, h10, h12, h13] at hf
    · exact h1 hm
    · exact h2 hm

/-- Witness for C4 at a concrete instance (allocation failure). -/
theorem verify_fails_silently_witness :
    verifyF nEx hashEx encEx ⟨true, false, false, false, false, false⟩
      [1] 0 1 2 4 (pubFromPriv nEx 2) = false :=
  verify_fails_silently nEx hashEx encEx
    ⟨true, false, false, false, false, false⟩ [1] 0 1 2 4
    (pubFromPriv nEx 2) (Or.inl rfl)

/-- C6: in both `Sign` and `Verify` the challenge compared against `r` is
SHA-256 over exactly `enc(Q) ‖ enc(P) ‖ message[offset..offset+size]` —
commitment first, then public key, then the message window with no
length prefix — reduced mod `n`, with both encodings checked to be
exactly 33 bytes. -/
theorem challenge_hash_structure (n : Nat) (H : Bytes → Bytes)
    (enc : ZMod n → Bytes) (msg : Bytes) (offset size : Nat) (d : Int)
    (p : ZMod n) (k : Nat) (f : Failures) (r s : Int) :
    (signWithNonce n H enc msg offset size d p k = some (r, s) →
      r = (bytesToNat (H (enc ((k : ZMod n)) ++
            (enc p ++ window msg offset size))) : Int) % (n : Int) ∧
      (enc ((k : ZMod n))).length = PUBKEY_COMPRESSED_SIZE_BYTES ∧
      (enc p).length = PUBKEY_COMPRESSED_SIZE_BYTES) ∧
    (verifyF n H enc f msg offset size r s p = true →
      r = (bytesToNat (H (enc ((s : ZMod n) + (r : ZMod n) * p) ++
            (enc p ++ window msg offset size))) : Int) % (n : Int) ∧
      (enc ((s : ZMod n) + (r : ZMod n) * p)).length =
        PUBKEY_COMPRESSED_SIZE_BYTES ∧
      (enc p).length = PUBKEY_COMPRESSED_SIZE_BYTES) := by
  constructor
  · intro hsig
    obtain ⟨-, -, -, hQ33, hP33, -, hr, -⟩ :=
      (signWithNonce_eq_some_iff n H enc msg offset size d p k r s).mp hsig
    rw [challengeOf_concat] at hr
    exact ⟨hr.symm, hQ33, hP33⟩
  · intro hv
    obtain ⟨-, -, -, -, -, -, -, -, hQ33, -, hP33, -, -, hr⟩ :=
      (verifyF_eq_true_iff n H enc f msg offset size r s p).mp hv
    rw [challengeOf_concat] at hr
    exact ⟨hr.symm, hQ33, hP33⟩

/-- Witness for C6 at a concrete instance: both implications applied to a
successful signing pass and to an accepting verification. -/
theorem challenge_hash_structure_witness :
    ((2 : Int) = (bytesToNat (hashEx (encEx ((3 : ZMod nEx)) ++
          (encEx (pubFromPriv nEx 2) ++ window [1] 0 1))) : Int) %
        (nEx : Int) ∧
      (encEx ((3 : ZMod nEx))).length = PUBKEY_COMPRESSED_SIZE_BYTES ∧
      (encEx (pubFromPriv nEx 2)).length = PUBKEY_COMPRESSED_SIZE_BYTES) ∧
    ((2 : Int) = (bytesToNat (hashEx
          (encEx (((4 : Int) : ZMod nEx) +
              ((2 : Int) : ZMod nEx) * pubFromPriv nEx 2) ++
            (encEx (pubFromPriv nEx 2) ++ window [1] 0 1))) : Int) %
        (nEx : Int) ∧
      (encEx (((4 : Int) : ZMod nEx) +
          ((2 : Int) : ZMod nEx) * pubFromPriv nEx 2)).length =
        PUBKEY_COMPRESSED_SIZE_BYTES ∧
      (encEx (pubFromPriv nEx 2)).length = PUBKEY_COMPRESSED_SIZE_BYTES) :=
  ⟨(challenge_hash_structure nEx hashEx encEx [1] 0 1 2 (pubFromPriv nEx 2) 3
      noFailures 2 4).1 (by decide),
   (challenge_hash_structure nEx hashEx encEx [1] 0 1 2 (pubFromPriv nEx 2) 3
      noFailures 2 4).2 (by decide)⟩

/-- C9: point deserialization rejects invalid encodings.  When the bytes
read from the buffer are not the compressed encoding of any non-identity
curve point (not on the curve, the identity, or an invalid prefix byte),
`ECPOINTSerialize::GetNumber` returns failure rather than a point; it
also fails when the read itself is out of range. -/
theorem getNumber_rejects_invalid (n : Nat) (enc : ZMod n → Bytes)
    (src : Bytes) (offset size : Nat)
    (h : ∀ q : ZMod n, q ≠ 0 →
      natToBytes (bytesToNat ((src.drop offset).take size)) ≠ enc q) :
    ECPOINTSerialize.GetNumber n enc src offset size = none := by
  unfold ECPOINTSerialize.GetNumber BIGNUMSerialize.GetNumber
  split
  · show ECPOINTSerialize.bn2point n enc
      (bytesToNat ((src.drop offset).take size)) = none
    unfold ECPOINTSerialize.bn2point
    refine List.find?_eq_none.mpr ?_
    intro q hq
    by_cases hq0 : q = 0
    · simp [hq0]
    · simp [hq0, h q hq0]
  · rfl

/-- Witness for C9 at a concrete instance: the single byte `0x09` is no
compressed point encoding. -/
theorem getNumber_rejects_invalid_witness :
    ECPOINTSerialize.GetNumber nEx encEx [9] 0 1 = none :=
  getNumber_rejects_invalid nEx encEx [9] 0 1 (by decide)

/-- C1: signatures verify.  For every private key `d` with
`1 ≤ d ≤ n - 1` and every non-empty message signed over its full window
(`offset = 0`, `size = len(m)`), a signature emitted by `Sign` under the
public key `P = d·G` is accepted by `Verify` under the same key. -/
theorem sign_then_verify_accepts (n : Nat) (H : Bytes → Bytes)
    (enc : ZMod n → Bytes) (nonceF : Int → Bytes → Nat) (msg : Bytes)
    (d r s : Int) (hd : 1 ≤ d ∧ d ≤ (n : Int) - 1) (hmsg : msg ≠ [])
    (hlen : msg.length < 2 ^ 32) (hk : nonceF d msg < n)
    (hsig : Sign n H enc nonceF msg 0 msg.length d (pubFromPriv n d) =
      some (r, s)) :
    Verify n H enc msg 0 msg.length r s (pubFromPriv n d) = true := by
  have hn2 : 2 ≤ n := by omega
  have hn0 : (0 : Int) < (n : Int) := by omega
  unfold Sign at hsig
  set k := nonceF d msg with hkdef
  obtain ⟨h1, h2, hk0, hQ33, hP33, hne, hr, hs⟩ :=
    (signWithNonce_eq_some_iff n H enc msg 0 msg.length d
      (pubFromPriv n d) k r s).mp hsig
  push_neg at hne
  have hrr : 1 ≤ challengeOf n H enc msg 0 msg.length (pubFromPriv n d)
        ((k : ZMod n)) ∧
      challengeOf n H enc msg 0 msg.length (pubFromPriv n d)
        ((k : ZMod n)) < (n : Int) :=
    emod_pos_range _ _ hn0 hne.1
  have hss : 1 ≤ responseOf n k (challengeOf n H enc msg 0 msg.length
        (pubFromPriv n d) ((k : ZMod n))) d ∧
      responseOf n k (challengeOf n H enc msg 0 msg.length
        (pubFromPriv n d) ((k : ZMod n))) d < (n : Int) :=
    emod_pos_range _ _ hn0 hne.2
  have hkz : (k : ZMod n) ≠ 0 := by
    intro h0
    rw [ZMod.natCast_zmod_eq_zero_iff_dvd] at h0
    have := Nat.le_of_dvd (Nat.pos_of_ne_zero hk0) h0
    omega
  have hQ : ((s : ZMod n) + (r : ZMod n) * pubFromPriv n d) = (k : ZMod n) := by
    rw [← hr, ← hs]
    exact response_add_challenge_mul n k
      (challengeOf n H enc msg 0 msg.length (pubFromPriv n d) ((k : ZMod n)))
      d
  show verifyF n H enc noFailures msg 0 msg.length r s (pubFromPriv n d) =
    true
  refine (verifyF_eq_true_iff n H enc noFailures msg 0 msg.length r s
    (pubFromPriv n d)).mpr
    ⟨h1, h2, rfl, by omega, by omega, rfl, ?_, rfl, ?_, rfl, hP33, rfl, rfl,
      ?_⟩
  · intro h0
    rw [hQ] at h0
    exact hkz h0
  · rw [hQ]
    exact hQ33
  · rw [hQ]
    exact hr

/-- Witness for C1 at a concrete instance. -/
theorem sign_then_verify_accepts_witness :
    Verify nEx hashEx encEx [1] 0 1 2 4 (pubFromPriv nEx 2) = true :=
  sign_then_verify_accepts nEx hashEx encEx nonceEx [1] 2 2 4
    ⟨by decide, by decide⟩ (by decide) (by decide) (by decide) (by decide)

/-- C10: when the external `EC_POINT_point2bn` conversion fails,
`ECPOINTSerialize::SetNumber` returns silently: the destination buffer is
left completely unchanged, and the `void` return carries no error
indication to the caller. -/
theorem setNumber_unchanged_on_point2bn_failure (n : Nat)
    (enc : ZMod n → Bytes) (dst : Bytes) (offset size : Nat)
    (value : ZMod n) :
    ECPOINTSerialize.SetNumber n enc true dst offset size value = dst :=
  rfl

end Schnorr
